import Mathlib

/-!
Verification of the streaming DTMF decoder (src/dtmf-stream.py).

The source is a single Python file.  Its core is the per-frame callback
`listen`, closing over the mutable detection state
(saved_tone, seen_tone, seen_count, time_on, pressed, complete), plus the
static DTMF tables and the coordinating routine `detect_tone`.

Shallow embedding choices:
* Symbols are `Char`, matching the one-character strings of the Python table.
* The spectral front end (numpy's rfft and the nearest-bin lookup) is
  external library code; a frame is modelled by its length `n` and the
  magnitude `mag t` that the nearest-bin lookup yields for each canonical
  tone frequency `t`.  Everything the repository itself computes from those
  magnitudes (the strength filter of line 65-66, the per-group max of
  lines 69-70, the table lookup of line 71) is embedded literally.
* Magnitudes and the strength threshold are rationals (the claims compare
  them only by order, which the ordered field `ℚ` models faithfully).
* Durations (`timedelta`, exact integer microseconds in Python) are `ℕ`;
  the wall-clock delta `datetime.now() - last_time` of each callback is an
  input of the step.
* Python's `max(d, key=d.get, default=None)` keeps the first key of maximal
  value in iteration order; the dict's insertion order comes from iterating
  a set literal, which CPython does not pin down, so the maps are embedded
  as association lists in the textual order of the source and the theorems
  about the winner assert only maximality, which is independent of the order.
* `raise sounddevice.CallbackStop` makes the stream deliver no further
  frames; the trace-level `runRaw`/`runFrames` model this by ignoring the
  rest of the input list once `complete` is set.
-/

/-- The low-group DTMF frequencies, `TONES_LOW` of the source. -/
def TONES_LOW : List Nat := [697, 770, 852, 941]

/-- The high-group DTMF frequencies, `TONES_HIGH` of the source. -/
def TONES_HIGH : List Nat := [1209, 1336, 1477, 1633]

/-- The 16-entry dual-tone table `TONES` of the source, in source order. -/
def TONES : List ((Nat × Nat) × Char) :=
  [((697, 1209), '1'), ((697, 1336), '2'), ((697, 1477), '3'), ((697, 1633), 'A'),
   ((770, 1209), '4'), ((770, 1336), '5'), ((770, 1477), '6'), ((770, 1633), 'B'),
   ((852, 1209), '7'), ((852, 1336), '8'), ((852, 1477), '9'), ((852, 1633), 'C'),
   ((941, 1209), '*'), ((941, 1336), '0'), ((941, 1477), '#'), ((941, 1633), 'D')]

/-- One audio frame, as seen by the repository's own code: its sample count
`frames` (called `n` here) and, for each canonical tone frequency, the
magnitude read from the spectral bin nearest to it (lines 56-62; the
transform itself is the external numpy library). -/
structure Frame where
  n : Nat
  mag : Nat → ℚ

/-- The configuration of `detect_tone`: tone_time, hang_time (durations),
strength (normalized magnitude threshold) and debounce (frame count). -/
structure Cfg where
  toneTime : Nat
  hangTime : Nat
  strength : ℚ
  debounce : Nat

/-- Line 61 then 65 of the source: the magnitude of each low tone, keeping
only those with `magnitude / frames > strength`. -/
def magnitudesLow (strength : ℚ) (fr : Frame) : List (Nat × ℚ) :=
  (TONES_LOW.map (fun t => (t, fr.mag t))).filter (fun p => p.2 / (fr.n : ℚ) > strength)

/-- Line 62 then 66 of the source: the magnitude of each high tone, keeping
only those with `magnitude / frames > strength`. -/
def magnitudesHigh (strength : ℚ) (fr : Frame) : List (Nat × ℚ) :=
  (TONES_HIGH.map (fun t => (t, fr.mag t))).filter (fun p => p.2 / (fr.n : ℚ) > strength)

/-- Python's `max(d, key=d.get)` over a non-empty association list: scan left
to right, replacing the current best only on a strictly greater value. -/
def maxKeyAux (best : Nat × ℚ) : List (Nat × ℚ) → Nat
  | [] => best.1
  | p :: rest => if best.2 < p.2 then maxKeyAux p rest else maxKeyAux best rest

/-- `max(d, key=d.get, default=None)` of lines 69-70: `none` on an empty map,
otherwise the first key of maximal magnitude. -/
def maxKey : List (Nat × ℚ) → Option Nat
  | [] => none
  | p :: rest => some (maxKeyAux p rest)

/-- Line 71, `TONES.get((max_low, max_high))`: a pair containing `None` is
not a key of the table, so the lookup yields `None` unless both winners
exist. -/
def foundTone (strength : ℚ) (fr : Frame) : Option Char :=
  match maxKey (magnitudesLow strength fr), maxKey (magnitudesHigh strength fr) with
  | some l, some h => TONES.lookup (l, h)
  | _, _ => none

/-- The mutable detection state closed over by `listen`:
saved_tone, seen_tone, seen_count, time_on, pressed, complete. -/
structure DState where
  saved : Option Char
  seen : Option Char
  count : Nat
  timeOn : Nat
  pressed : Option Char
  complete : Bool
deriving DecidableEq, Repr

/-- The state as initialised by `detect_tone` (lines 45-50). -/
def initState : DState :=
  { saved := none, seen := none, count := 0, timeOn := 0, pressed := none, complete := false }

/-- Lines 74-85, the debouncing block of `listen`, applied to the raw tone
`found` of the current frame. -/
def debStep (debounce : Nat) (found : Option Char) (s : DState) : DState :=
  if found = s.seen then
    if s.count < debounce then { s with count := s.count + 1 }
    else if found ≠ s.saved then { s with saved := found, timeOn := 0 }
    else s
  else
    { s with seen := found, count := 1 }

/-- Line 86, `time_on += datetime.now() - last_time`: the wall-clock delta
`delta` since the previous callback is accumulated. -/
def tick (delta : Nat) (s : DState) : DState :=
  { s with timeOn := s.timeOn + delta }

/-- Lines 90-101, the press/hang state machine of `listen`. -/
def pressStep (cfg : Cfg) (s : DState) : DState :=
  if s.pressed = none then
    if s.saved ≠ none ∧ s.timeOn > cfg.toneTime then { s with pressed := s.saved } else s
  else
    if s.saved = s.seen ∧ s.saved ≠ none then { s with pressed := none }
    else if s.timeOn > cfg.hangTime then { s with complete := true }
    else s

/-- One whole invocation of `listen`, given the raw tone the spectral part
produced for this frame and the wall-clock delta since the last call. -/
def listenRaw (cfg : Cfg) (found : Option Char) (delta : Nat) (s : DState) : DState :=
  pressStep cfg (tick delta (debStep cfg.debounce found s))

/-- One whole invocation of `listen` on a frame: spectral filtering and
matching (lines 56-71) feeding the state update (lines 74-101). -/
def listenFrame (cfg : Cfg) (fr : Frame) (delta : Nat) (s : DState) : DState :=
  listenRaw cfg (foundTone cfg.strength fr) delta s

/-- Processing of a list of (raw tone, delta) inputs; once `complete` is set
the callback raised `sounddevice.CallbackStop`, so later frames are not
processed. -/
def runRaw (cfg : Cfg) (s : DState) : List (Option Char × Nat) → DState
  | [] => s
  | f :: fs => if s.complete then s else runRaw cfg (listenRaw cfg f.1 f.2 s) fs

/-- Processing of a list of (frame, delta) inputs through the full pipeline;
frames after `complete` are not processed (CallbackStop). -/
def runFrames (cfg : Cfg) (s : DState) : List (Frame × Nat) → DState
  | [] => s
  | f :: fs => if s.complete then s else runFrames cfg (listenFrame cfg f.1 f.2 s) fs

/-- The state the press/hang machine of lines 90-101 actually reads: the
detection state after this frame's debounce update (lines 74-85) and
wall-clock accumulation (line 86). -/
def midState (cfg : Cfg) (found : Option Char) (delta : Nat) (s : DState) : DState :=
  tick delta (debStep cfg.debounce found s)

theorem listenRaw_eq (cfg : Cfg) (found : Option Char) (delta : Nat) (s : DState) :
    listenRaw cfg found delta s = pressStep cfg (midState cfg found delta s) := rfl

theorem debStep_pressed (d : Nat) (f : Option Char) (s : DState) :
    (debStep d f s).pressed = s.pressed := by
  unfold debStep; split_ifs <;> rfl

theorem debStep_complete (d : Nat) (f : Option Char) (s : DState) :
    (debStep d f s).complete = s.complete := by
  unfold debStep; split_ifs <;> rfl

theorem midState_pressed (cfg : Cfg) (found : Option Char) (delta : Nat) (s : DState) :
    (midState cfg found delta s).pressed = s.pressed := by
  simp [midState, tick, debStep_pressed]

theorem midState_complete (cfg : Cfg) (found : Option Char) (delta : Nat) (s : DState) :
    (midState cfg found delta s).complete = s.complete := by
  simp [midState, tick, debStep_complete]

/-- The single equation governing the elapsed clock: the debounce block
zeroes `time_on` exactly when it changes `saved_tone` (lines 78-81), and
line 86 then adds this frame's wall-clock delta. -/
theorem listenRaw_timeOn (cfg : Cfg) (found : Option Char) (delta : Nat) (s : DState) :
    (listenRaw cfg found delta s).timeOn
      = (if (listenRaw cfg found delta s).saved = s.saved then s.timeOn else 0) + delta := by
  unfold listenRaw pressStep tick debStep
  split_ifs <;> simp_all

theorem listenRaw_saved (cfg : Cfg) (found : Option Char) (delta : Nat) (s : DState) :
    (listenRaw cfg found delta s).saved = (debStep cfg.debounce found s).saved := by
  unfold listenRaw pressStep tick
  split_ifs <;> rfl

/-- Claim C3: in WAITING_FOR_PRESS (`pressed` none, `complete` false), the
step records a press exactly when the post-debounce confirmed tone is
non-none and the accumulated elapsed time strictly exceeds toneTime; the
press recorded is that confirmed tone, and otherwise nothing of the
press state changes; `complete` stays false either way (lines 90-93). -/
theorem waiting_for_press_step (cfg : Cfg) (found : Option Char) (delta : Nat) (s : DState)
    (hp : s.pressed = none) (hc : s.complete = false) :
    ((listenRaw cfg found delta s).pressed ≠ none ↔
      (midState cfg found delta s).saved ≠ none ∧
        (midState cfg found delta s).timeOn > cfg.toneTime) ∧
    ((listenRaw cfg found delta s).pressed ≠ none →
      (listenRaw cfg found delta s).pressed = (midState cfg found delta s).saved) ∧
    ((listenRaw cfg found delta s).pressed = none →
      listenRaw cfg found delta s = midState cfg found delta s) ∧
    (listenRaw cfg found delta s).complete = false := by
  have hps : (midState cfg found delta s).pressed = none := by rw [midState_pressed]; exact hp
  have hcs : (midState cfg found delta s).complete = false := by rw [midState_complete]; exact hc
  rw [listenRaw_eq]
  unfold pressStep
  split_ifs with h1 <;> simp_all

/-- Claim C3 witness: a concrete WAITING_FOR_PRESS step (confirmed tone '1',
elapsed 0 before the frame, a 300ms delta against toneTime 250ms). -/
theorem waiting_for_press_step_witness :
    ((listenRaw ⟨250, 50, 1/100, 3⟩ (some '1') 300 ⟨some '1', some '1', 3, 0, none, false⟩).pressed ≠ none ↔
      (midState ⟨250, 50, 1/100, 3⟩ (some '1') 300 ⟨some '1', some '1', 3, 0, none, false⟩).saved ≠ none ∧
        (midState ⟨250, 50, 1/100, 3⟩ (some '1') 300 ⟨some '1', some '1', 3, 0, none, false⟩).timeOn > 250) ∧
    ((listenRaw ⟨250, 50, 1/100, 3⟩ (some '1') 300 ⟨some '1', some '1', 3, 0, none, false⟩).pressed ≠ none →
      (listenRaw ⟨250, 50, 1/100, 3⟩ (some '1') 300 ⟨some '1', some '1', 3, 0, none, false⟩).pressed
        = (midState ⟨250, 50, 1/100, 3⟩ (some '1') 300 ⟨some '1', some '1', 3, 0, none, false⟩).saved) ∧
    ((listenRaw ⟨250, 50, 1/100, 3⟩ (some '1') 300 ⟨some '1', some '1', 3, 0, none, false⟩).pressed = none →
      listenRaw ⟨250, 50, 1/100, 3⟩ (some '1') 300 ⟨some '1', some '1', 3, 0, none, false⟩
        = midState ⟨250, 50, 1/100, 3⟩ (some '1') 300 ⟨some '1', some '1', 3, 0, none, false⟩) ∧
    (listenRaw ⟨250, 50, 1/100, 3⟩ (some '1') 300 ⟨some '1', some '1', 3, 0, none, false⟩).complete = false :=
  waiting_for_press_step ⟨250, 50, 1/100, 3⟩ (some '1') 300
    ⟨some '1', some '1', 3, 0, none, false⟩ rfl rfl

/-- Claim C1 (amended): in WAITING_FOR_RELEASE (`pressed` non-none,
`complete` false): if the post-debounce raw tone equals the confirmed tone
and is non-none, the step clears `pressed` (back to WAITING_FOR_PRESS)
without completing; otherwise the step completes if and only if the
elapsed clock — time accumulated since the confirmed tone last changed,
which is NOT reset on entering the window and so includes the press
duration itself — exceeds hangTime, keeping `pressed` as the final result
(lines 94-101 of the source). -/
theorem waiting_for_release_step (cfg : Cfg) (found : Option Char) (delta : Nat) (s : DState)
    (hp : s.pressed ≠ none) (hc : s.complete = false) :
    (((midState cfg found delta s).saved = (midState cfg found delta s).seen ∧
        (midState cfg found delta s).saved ≠ none) →
      (listenRaw cfg found delta s).pressed = none ∧
        (listenRaw cfg found delta s).complete = false) ∧
    (¬((midState cfg found delta s).saved = (midState cfg found delta s).seen ∧
        (midState cfg found delta s).saved ≠ none) →
      ((listenRaw cfg found delta s).complete = true ↔
        (midState cfg found delta s).timeOn > cfg.hangTime) ∧
      (listenRaw cfg found delta s).pressed = s.pressed) := by
  have hps : (midState cfg found delta s).pressed = s.pressed :=
    midState_pressed cfg found delta s
  have hcs : (midState cfg found delta s).complete = false := by
    rw [midState_complete]; exact hc
  rw [listenRaw_eq]
  unfold pressStep
  split_ifs with h1 hA hB hC
  · exact absurd (hps ▸ h1) hp
  · exact absurd (hps ▸ h1) hp
  · exact ⟨fun _ => ⟨rfl, hcs⟩, fun hn => absurd hB hn⟩
  · exact ⟨fun hh => absurd hh hB, fun _ => ⟨⟨fun _ => hC, fun _ => rfl⟩, hps⟩⟩
  · refine ⟨fun hh => absurd hh hB, fun _ => ⟨⟨fun hcc => ?_, fun hgt => absurd hgt hC⟩, hps⟩⟩
    rw [hcs] at hcc
    exact absurd hcc Bool.false_ne_true

/-- Claim C1 (amended) witness: a release-state step (pressed '1', raw tone
gone this frame, elapsed clock 400ms+100ms against hangTime 150ms)
completes with the press kept. -/
theorem waiting_for_release_step_witness :
    (((midState ⟨250, 150, 1/100, 3⟩ none 100 ⟨some '1', some '1', 3, 400, some '1', false⟩).saved
        = (midState ⟨250, 150, 1/100, 3⟩ none 100 ⟨some '1', some '1', 3, 400, some '1', false⟩).seen ∧
        (midState ⟨250, 150, 1/100, 3⟩ none 100 ⟨some '1', some '1', 3, 400, some '1', false⟩).saved ≠ none) →
      (listenRaw ⟨250, 150, 1/100, 3⟩ none 100 ⟨some '1', some '1', 3, 400, some '1', false⟩).pressed = none ∧
        (listenRaw ⟨250, 150, 1/100, 3⟩ none 100 ⟨some '1', some '1', 3, 400, some '1', false⟩).complete = false) ∧
    (¬((midState ⟨250, 150, 1/100, 3⟩ none 100 ⟨some '1', some '1', 3, 400, some '1', false⟩).saved
        = (midState ⟨250, 150, 1/100, 3⟩ none 100 ⟨some '1', some '1', 3, 400, some '1', false⟩).seen ∧
        (midState ⟨250, 150, 1/100, 3⟩ none 100 ⟨some '1', some '1', 3, 400, some '1', false⟩).saved ≠ none) →
      ((listenRaw ⟨250, 150, 1/100, 3⟩ none 100 ⟨some '1', some '1', 3, 400, some '1', false⟩).complete = true ↔
        (midState ⟨250, 150, 1/100, 3⟩ none 100 ⟨some '1', some '1', 3, 400, some '1', false⟩).timeOn > 150) ∧
      (listenRaw ⟨250, 150, 1/100, 3⟩ none 100 ⟨some '1', some '1', 3, 400, some '1', false⟩).pressed
        = some '1') :=
  waiting_for_release_step ⟨250, 150, 1/100, 3⟩ none 100
    ⟨some '1', some '1', 3, 400, some '1', false⟩ (by decide) rfl

/-- Modelled from the spec: the source keeps no variable measuring time
since entering WAITING_FOR_RELEASE, so the claim's clock is written from
the spec's words — a run-level accumulator of wall-clock deltas of the
processed frames that restarts at zero on the frame whose press step sets
`pressed` (entry into the release window). -/
def runRawWindow (cfg : Cfg) : DState × Nat → List (Option Char × Nat) → DState × Nat
  | sw, [] => sw
  | (s, w), f :: fs =>
      if s.complete then (s, w)
      else
        runRawWindow cfg
          (listenRaw cfg f.1 f.2 s,
            if s.pressed = none ∧ (listenRaw cfg f.1 f.2 s).pressed ≠ none then 0
            else w + f.2) fs

/-- The inputs of the C1 counterexample: six 100ms frames of raw '1'
followed by one 100ms silent frame. -/
def releaseCexInputs : List (Option Char × Nat) :=
  [(some '1', 100), (some '1', 100), (some '1', 100), (some '1', 100),
   (some '1', 100), (some '1', 100), (none, 100)]

/-- Claim C1 counterexample: toneTime 250ms, hangTime 150ms, debounce 3.
The press of '1' is recorded on the sixth frame (entering the release
window) and the machine completes on the seventh, although only 100ms —
not more than hangTime = 150ms — have accumulated since the window was
entered: completion is not governed by time since entering
WAITING_FOR_RELEASE (the code compares the clock accumulated since the
confirmed tone last changed, line 98). -/
theorem waiting_for_release_claim_counterexample :
    (runRawWindow ⟨250, 150, 1/100, 3⟩ (initState, 0) releaseCexInputs).1.complete = true ∧
    (runRawWindow ⟨250, 150, 1/100, 3⟩ (initState, 0) releaseCexInputs).1.pressed = some '1' ∧
    (runRawWindow ⟨250, 150, 1/100, 3⟩ (initState, 0) releaseCexInputs).2 = 100 ∧
    ¬(runRawWindow ⟨250, 150, 1/100, 3⟩ (initState, 0) releaseCexInputs).2 > 150 := by
  decide

/-- Claim C2 (amended): the per-frame debounce transition of lines 74-85:
while the raw tone matches the stored seen tone and the count is below
debounce, only the count increments; once the count is no longer below
debounce, a further matching frame whose tone differs from the confirmed
tone sets the confirmed tone and zeroes the elapsed clock — confirmation
thus lands on the first matching frame AFTER the count reached debounce —
and a matching frame whose tone already equals the confirmed tone changes
nothing; a frame whose raw tone differs from the seen tone resets the
seen tone to it and the count to 1, leaving the confirmed tone unchanged. -/
theorem debounce_step (debounce : Nat) (found : Option Char) (s : DState) :
    (found = s.seen → s.count < debounce →
      debStep debounce found s = { s with count := s.count + 1 }) ∧
    (found = s.seen → ¬s.count < debounce → found ≠ s.saved →
      debStep debounce found s = { s with saved := found, timeOn := 0 }) ∧
    (found = s.seen → ¬s.count < debounce → found = s.saved →
      debStep debounce found s = s) ∧
    (found ≠ s.seen →
      debStep debounce found s = { s with seen := found, count := 1 }) := by
  unfold debStep
  split_ifs <;> simp_all

/-- Claim C2 (amended) witness: with debounce 3 and the count already at 3,
a fourth matching '1' frame confirms the tone and zeroes the clock. -/
theorem debounce_step_witness :
    debStep 3 (some '1') ⟨none, some '1', 3, 200, none, false⟩
      = { (⟨none, some '1', 3, 200, none, false⟩ : DState) with saved := some '1', timeOn := 0 } :=
  (debounce_step 3 (some '1') ⟨none, some '1', 3, 200, none, false⟩).2.1 rfl
    (by decide) (by decide)

/-- Claim C2 counterexample: with debounce 3, three consecutive frames of
raw '1' from the initial state bring seen_count to 3 = debounce, yet
saved_tone is still none rather than '1'; only the fourth consecutive
matching frame sets it. The confirmed tone is NOT set on the frame where
rawCount reaches debounce. -/
theorem debounce_claim_counterexample :
    (runRaw ⟨250, 50, 1/100, 3⟩ initState
        [(some '1', 10), (some '1', 10), (some '1', 10)]).count = 3 ∧
    (runRaw ⟨250, 50, 1/100, 3⟩ initState
        [(some '1', 10), (some '1', 10), (some '1', 10)]).seen = some '1' ∧
    (runRaw ⟨250, 50, 1/100, 3⟩ initState
        [(some '1', 10), (some '1', 10), (some '1', 10)]).saved = none ∧
    (runRaw ⟨250, 50, 1/100, 3⟩ initState
        [(some '1', 10), (some '1', 10), (some '1', 10), (some '1', 10)]).saved = some '1' := by
  decide

/-- A run of frames along which the callback is still live (`complete` not
yet set) and the debounce block never changes `saved_tone`. -/
def steadyRun (cfg : Cfg) (s : DState) : List (Option Char × Nat) → Bool
  | [] => true
  | f :: fs =>
      !s.complete && ((listenRaw cfg f.1 f.2 s).saved == s.saved)
        && steadyRun cfg (listenRaw cfg f.1 f.2 s) fs

/-- Total wall-clock time of a list of (raw tone, delta) inputs. -/
def sumDeltas (fs : List (Option Char × Nat)) : Nat := (fs.map Prod.snd).sum

/-- Claim C4: per frame, the elapsed clock is zeroed exactly when the frame
changes the confirmed tone and then accumulates the frame's wall-clock
delta; consequently, along any run of processed frames that leaves the
confirmed tone unchanged, the elapsed value read by the press machine is
its starting value plus the sum of the wall-clock deltas since then. -/
theorem elapsed_resets_iff_confirmed_changes (cfg : Cfg) (found : Option Char) (delta : Nat)
    (s : DState) (fs : List (Option Char × Nat)) (hsteady : steadyRun cfg s fs = true) :
    ((listenRaw cfg found delta s).timeOn
      = (if (listenRaw cfg found delta s).saved = s.saved then s.timeOn else 0) + delta) ∧
    (runRaw cfg s fs).timeOn = s.timeOn + sumDeltas fs := by
  refine ⟨listenRaw_timeOn cfg found delta s, ?_⟩
  induction fs generalizing s with
  | nil => simp [runRaw, sumDeltas]
  | cons f fs ih =>
      simp only [steadyRun, Bool.and_eq_true, Bool.not_eq_true', beq_iff_eq] at hsteady
      obtain ⟨⟨hlive, hsame⟩, hrest⟩ := hsteady
      have hstep := listenRaw_timeOn cfg f.1 f.2 s
      rw [hsame, if_pos rfl] at hstep
      simp only [runRaw, hlive, Bool.false_eq_true, if_false]
      rw [ih _ hrest, hstep]
      simp [sumDeltas, Nat.add_assoc]

/-- Claim C4 witness: a concrete two-frame steady run from the initial
state accumulates both deltas, and the step equation holds there. -/
theorem elapsed_resets_iff_confirmed_changes_witness :
    ((listenRaw ⟨250, 50, 1/100, 3⟩ (some '1') 7 initState).timeOn
      = (if (listenRaw ⟨250, 50, 1/100, 3⟩ (some '1') 7 initState).saved = initState.saved
          then initState.timeOn else 0) + 7) ∧
    (runRaw ⟨250, 50, 1/100, 3⟩ initState [(some '1', 7), (none, 5)]).timeOn
      = initState.timeOn + sumDeltas [(some '1', 7), (none, 5)] :=
  elapsed_resets_iff_confirmed_changes ⟨250, 50, 1/100, 3⟩ (some '1') 7 initState
    [(some '1', 7), (none, 5)] (by decide)

theorem mem_magnitudesLow (strength : ℚ) (fr : Frame) (p : Nat × ℚ)
    (hm : p ∈ magnitudesLow strength fr) :
    p.1 ∈ TONES_LOW ∧ p.2 = fr.mag p.1 ∧ p.2 / (fr.n : ℚ) > strength := by
  unfold magnitudesLow at hm
  rw [List.mem_filter] at hm
  obtain ⟨hmem, hcond⟩ := hm
  rw [List.mem_map] at hmem
  obtain ⟨t, ht, hpt⟩ := hmem
  subst hpt
  exact ⟨ht, rfl, by simpa using hcond⟩

theorem mem_magnitudesHigh (strength : ℚ) (fr : Frame) (p : Nat × ℚ)
    (hm : p ∈ magnitudesHigh strength fr) :
    p.1 ∈ TONES_HIGH ∧ p.2 = fr.mag p.1 ∧ p.2 / (fr.n : ℚ) > strength := by
  unfold magnitudesHigh at hm
  rw [List.mem_filter] at hm
  obtain ⟨hmem, hcond⟩ := hm
  rw [List.mem_map] at hmem
  obtain ⟨t, ht, hpt⟩ := hmem
  subst hpt
  exact ⟨ht, rfl, by simpa using hcond⟩

/-- The scan of `max(d, key=d.get)` returns a key of the map whose
magnitude bounds every entry scanned, the starting candidate included. -/
theorem maxKeyAux_spec : ∀ (L : List (Nat × ℚ)) (best : Nat × ℚ),
    ∃ m, (maxKeyAux best L, m) ∈ best :: L ∧ best.2 ≤ m ∧ ∀ q ∈ L, q.2 ≤ m := by
  intro L
  induction L with
  | nil =>
      intro best
      exact ⟨best.2, by simp [maxKeyAux], le_refl _, by simp⟩
  | cons p rest ih =>
      intro best
      unfold maxKeyAux
      split_ifs with hlt
      · obtain ⟨m, hmem, hble, hall⟩ := ih p
        refine ⟨m, List.mem_cons_of_mem best hmem, le_of_lt (lt_of_lt_of_le hlt hble), ?_⟩
        intro q hq
        rcases List.mem_cons.1 hq with rfl | hq'
        · exact hble
        · exact hall q hq'
      · obtain ⟨m, hmem, hble, hall⟩ := ih best
        refine ⟨m, ?_, hble, ?_⟩
        · rcases List.mem_cons.1 hmem with h | h
          · exact List.mem_cons.2 (Or.inl h)
          · exact List.mem_cons_of_mem best (List.mem_cons_of_mem p h)
        · intro q hq
          rcases List.mem_cons.1 hq with rfl | hq'
          · exact le_trans (not_lt.1 hlt) hble
          · exact hall q hq'

theorem maxKey_spec (L : List (Nat × ℚ)) (t : Nat) (h : maxKey L = some t) :
    ∃ m, (t, m) ∈ L ∧ ∀ q ∈ L, q.2 ≤ m := by
  cases L with
  | nil => exact Option.noConfusion h
  | cons p rest =>
      obtain ⟨m, hmem, hble, hall⟩ := maxKeyAux_spec rest p
      have ht : maxKeyAux p rest = t := by
        simpa [maxKey] using h
      subst ht
      refine ⟨m, hmem, ?_⟩
      intro q hq
      rcases List.mem_cons.1 hq with rfl | hq'
      · exact hble
      · exact hall q hq'

theorem foundTone_eq_none_left (strength : ℚ) (fr : Frame)
    (h : magnitudesLow strength fr = []) : foundTone strength fr = none := by
  unfold foundTone
  rw [h]
  rfl

theorem foundTone_eq_none_right (strength : ℚ) (fr : Frame)
    (h : magnitudesHigh strength fr = []) : foundTone strength fr = none := by
  unfold foundTone
  rw [h]
  rcases maxKey (magnitudesLow strength fr) with _ | l <;> rfl

theorem foundTone_some (strength : ℚ) (fr : Frame) (c : Char)
    (h : foundTone strength fr = some c) :
    ∃ l k, maxKey (magnitudesLow strength fr) = some l ∧
      maxKey (magnitudesHigh strength fr) = some k ∧ TONES.lookup (l, k) = some c := by
  unfold foundTone at h
  rcases hl : maxKey (magnitudesLow strength fr) with _ | l <;> rw [hl] at h
  · exact Option.noConfusion h
  rcases hk : maxKey (magnitudesHigh strength fr) with _ | k <;> rw [hk] at h
  · exact Option.noConfusion h
  exact ⟨l, k, rfl, rfl, h⟩

theorem lookup_mem_values : ∀ (l : List ((Nat × Nat) × Char)) (k : Nat × Nat) (v : Char),
    List.lookup k l = some v → v ∈ l.map Prod.snd := by
  intro l
  induction l with
  | nil => intro k v h; exact Option.noConfusion h
  | cons p rest ih =>
      intro k v h
      rcases p with ⟨a, b⟩
      simp only [List.lookup] at h
      rcases hbeq : (k == a) with _ | _ <;> rw [hbeq] at h
      · exact List.mem_cons_of_mem _ (ih k v h)
      · obtain rfl : b = v := Option.some.inj h
        exact List.mem_cons_self _ _

theorem foundTone_mem (strength : ℚ) (fr : Frame) (c : Char)
    (h : foundTone strength fr = some c) : c ∈ TONES.map Prod.snd := by
  obtain ⟨l, k, _, _, hlk⟩ := foundTone_some strength fr c h
  exact lookup_mem_values TONES (l, k) c hlk

theorem magnitudesLow_eq_nil (strength : ℚ) (fr : Frame)
    (h : ∀ t ∈ TONES_LOW, fr.mag t / (fr.n : ℚ) ≤ strength) :
    magnitudesLow strength fr = [] := by
  unfold magnitudesLow
  rw [List.filter_eq_nil_iff]
  intro p hp
  rw [List.mem_map] at hp
  obtain ⟨t, ht, rfl⟩ := hp
  simpa using not_lt.2 (h t ht)

/-- Claim C6: a canonical frequency whose magnitude, normalized by the
frame length, is at or below `strength` is discarded by the filter of
lines 65-66, and every frequency that wins a group — hence every
frequency of a matched pair — has normalized magnitude strictly above
`strength`. -/
theorem strength_filter_discards (strength : ℚ) (fr : Frame) :
    (∀ t ∈ TONES_LOW, fr.mag t / (fr.n : ℚ) ≤ strength →
      ∀ m, (t, m) ∉ magnitudesLow strength fr) ∧
    (∀ t ∈ TONES_HIGH, fr.mag t / (fr.n : ℚ) ≤ strength →
      ∀ m, (t, m) ∉ magnitudesHigh strength fr) ∧
    (∀ l, maxKey (magnitudesLow strength fr) = some l →
      fr.mag l / (fr.n : ℚ) > strength) ∧
    (∀ k, maxKey (magnitudesHigh strength fr) = some k →
      fr.mag k / (fr.n : ℚ) > strength) ∧
    (∀ c, foundTone strength fr = some c →
      ∃ l k, maxKey (magnitudesLow strength fr) = some l ∧
        maxKey (magnitudesHigh strength fr) = some k ∧
        TONES.lookup (l, k) = some c ∧
        fr.mag l / (fr.n : ℚ) > strength ∧ fr.mag k / (fr.n : ℚ) > strength) := by
  have hlow : ∀ l, maxKey (magnitudesLow strength fr) = some l →
      fr.mag l / (fr.n : ℚ) > strength := by
    intro l hl
    obtain ⟨m, hmem, _⟩ := maxKey_spec _ _ hl
    obtain ⟨_, heq, hgt⟩ := mem_magnitudesLow strength fr _ hmem
    exact heq ▸ hgt
  have hhigh : ∀ k, maxKey (magnitudesHigh strength fr) = some k →
      fr.mag k / (fr.n : ℚ) > strength := by
    intro k hk
    obtain ⟨m, hmem, _⟩ := maxKey_spec _ _ hk
    obtain ⟨_, heq, hgt⟩ := mem_magnitudesHigh strength fr _ hmem
    exact heq ▸ hgt
  refine ⟨?_, ?_, hlow, hhigh, ?_⟩
  · intro t _ hle m hmem
    obtain ⟨_, heq, hgt⟩ := mem_magnitudesLow strength fr _ hmem
    exact absurd (heq ▸ hgt) (not_lt.2 hle)
  · intro t _ hle m hmem
    obtain ⟨_, heq, hgt⟩ := mem_magnitudesHigh strength fr _ hmem
    exact absurd (heq ▸ hgt) (not_lt.2 hle)
  · intro c hc
    obtain ⟨l, k, hl, hk, hlk⟩ := foundTone_some strength fr c hc
    exact ⟨l, k, hl, hk, hlk, hlow l hl, hhigh k hk⟩

/-- A frame whose 697Hz magnitude is 5 out of 512 samples: normalized
5/512 is at or below the 1/100 threshold, so the tone must be discarded. -/
def weakFrame : Frame := ⟨512, fun t => if t = 697 then 5 else if t = 1209 then 512 else 0⟩

/-- Claim C6 witness: the weak 697Hz tone (normalized magnitude 5/512 ≤
1/100) is absent from the filtered low-group map. -/
theorem strength_filter_discards_witness :
    (697, (5 : ℚ)) ∉ magnitudesLow (1/100) weakFrame :=
  (strength_filter_discards (1/100) weakFrame).1 697 (by decide)
    (by norm_num [weakFrame]) 5

/-- Claim C7: the matcher of lines 68-71: an empty low (or high) filtered
map makes the frame's raw result none; a group winner is an entry of its
filtered map whose magnitude bounds every entry of that map; and when both
winners exist the raw result is the fixed table's entry for the pair. -/
theorem tone_matcher_max (strength : ℚ) (fr : Frame) :
    (magnitudesLow strength fr = [] → foundTone strength fr = none) ∧
    (magnitudesHigh strength fr = [] → foundTone strength fr = none) ∧
    (∀ l, maxKey (magnitudesLow strength fr) = some l →
      (l, fr.mag l) ∈ magnitudesLow strength fr ∧
        ∀ p ∈ magnitudesLow strength fr, p.2 ≤ fr.mag l) ∧
    (∀ k, maxKey (magnitudesHigh strength fr) = some k →
      (k, fr.mag k) ∈ magnitudesHigh strength fr ∧
        ∀ p ∈ magnitudesHigh strength fr, p.2 ≤ fr.mag k) ∧
    (∀ l k, maxKey (magnitudesLow strength fr) = some l →
      maxKey (magnitudesHigh strength fr) = some k →
      foundTone strength fr = TONES.lookup (l, k)) := by
  refine ⟨foundTone_eq_none_left strength fr, foundTone_eq_none_right strength fr, ?_, ?_, ?_⟩
  · intro l hl
    obtain ⟨m, hmem, hall⟩ := maxKey_spec _ _ hl
    obtain ⟨_, heq, _⟩ := mem_magnitudesLow strength fr _ hmem
    exact ⟨heq ▸ hmem, fun p hp => heq ▸ hall p hp⟩
  · intro k hk
    obtain ⟨m, hmem, hall⟩ := maxKey_spec _ _ hk
    obtain ⟨_, heq, _⟩ := mem_magnitudesHigh strength fr _ hmem
    exact ⟨heq ▸ hmem, fun p hp => heq ▸ hall p hp⟩
  · intro l k hl hk
    unfold foundTone
    rw [hl, hk]

/-- A clean 697Hz + 1209Hz frame of 512 samples at full magnitude. -/
def toneFrame : Frame := ⟨512, fun t => if t = 697 ∨ t = 1209 then 512 else 0⟩

/-- A 512-sample frame with no energy at any canonical frequency. -/
def silentFrame : Frame := ⟨512, fun _ => 0⟩

/-- The default configuration of the CLI loop: toneTime 250ms, hangTime
50ms, and the default strength 0.01 and debounce 3 of `detect_tone`. -/
def cfg0 : Cfg := ⟨250, 50, 1/100, 3⟩

theorem magLow_toneFrame : magnitudesLow (1/100) toneFrame = [(697, (512 : ℚ))] := by
  norm_num [magnitudesLow, TONES_LOW, toneFrame, List.filter_cons]

theorem magHigh_toneFrame : magnitudesHigh (1/100) toneFrame = [(1209, (512 : ℚ))] := by
  norm_num [magnitudesHigh, TONES_HIGH, toneFrame, List.filter_cons]

theorem magLow_silentFrame : magnitudesLow (1/100) silentFrame = [] := by
  norm_num [magnitudesLow, TONES_LOW, silentFrame, List.filter_cons]

theorem foundTone_toneFrame : foundTone (1/100) toneFrame = some '1' := by
  unfold foundTone
  rw [magLow_toneFrame, magHigh_toneFrame]
  rfl

theorem foundTone_silentFrame : foundTone (1/100) silentFrame = none :=
  foundTone_eq_none_left (1/100) silentFrame magLow_silentFrame

/-- Claim C7 witness: on the clean 697+1209 frame the winners are 697 and
1209 and the matched symbol is the table's entry for that pair, namely '1'. -/
theorem tone_matcher_max_witness :
    foundTone (1/100) toneFrame = TONES.lookup (697, 1209) ∧
    (697, toneFrame.mag 697) ∈ magnitudesLow (1/100) toneFrame :=
  ⟨(tone_matcher_max (1/100) toneFrame).2.2.2.2 697 1209
      (by rw [magLow_toneFrame]; rfl) (by rw [magHigh_toneFrame]; rfl),
   ((tone_matcher_max (1/100) toneFrame).2.2.1 697 (by rw [magLow_toneFrame]; rfl)).1⟩

/-- A frame with only `none` raw tones keeps the machine silent: with no
confirmed tone, no press and no completion, one step changes none of the
three. -/
theorem listenRaw_none_stable (cfg : Cfg) (delta : Nat) (s : DState)
    (hs : s.saved = none) (hp : s.pressed = none) (hc : s.complete = false) :
    (listenRaw cfg none delta s).saved = none ∧
      (listenRaw cfg none delta s).pressed = none ∧
      (listenRaw cfg none delta s).complete = false := by
  unfold listenRaw pressStep tick debStep
  split_ifs <;> simp_all

theorem runFrames_silent (cfg : Cfg) : ∀ (fs : List (Frame × Nat)) (s : DState),
    s.saved = none → s.pressed = none → s.complete = false →
    (∀ f ∈ fs, foundTone cfg.strength f.1 = none) →
    (runFrames cfg s fs).saved = none ∧ (runFrames cfg s fs).pressed = none ∧
      (runFrames cfg s fs).complete = false := by
  intro fs
  induction fs with
  | nil => intro s h1 h2 h3 _; exact ⟨h1, h2, h3⟩
  | cons f fs ih =>
      intro s h1 h2 h3 hall
      have hf : foundTone cfg.strength f.1 = none := hall f (List.mem_cons_self _ _)
      simp only [runFrames, listenFrame, h3, Bool.false_eq_true, if_false, hf]
      obtain ⟨a, b, c⟩ := listenRaw_none_stable cfg f.2 s h1 h2 h3
      exact ih _ a b c (fun g hg => hall g (List.mem_cons_of_mem _ hg))

/-- Claim C5: for a valid configuration, a sequence of frames none of which
carries a canonical tone with normalized magnitude above `strength` never
moves the machine out of WAITING_FOR_PRESS: from the initial state,
`pressed` stays none and `complete` stays false after every frame. -/
theorem silence_never_leaves_waiting (cfg : Cfg) (fs : List (Frame × Nat))
    (htone : 0 < cfg.toneTime) (hhang : 0 < cfg.hangTime)
    (hstr : 0 < cfg.strength ∧ cfg.strength < 1) (hdeb : 1 ≤ cfg.debounce)
    (hsil : ∀ f ∈ fs, ∀ t ∈ TONES_LOW ++ TONES_HIGH,
      f.1.mag t / (f.1.n : ℚ) ≤ cfg.strength) :
    (runFrames cfg initState fs).pressed = none ∧
      (runFrames cfg initState fs).complete = false := by
  have h := runFrames_silent cfg fs initState rfl rfl rfl ?_
  · exact ⟨h.2.1, h.2.2⟩
  · intro f hf
    apply foundTone_eq_none_left
    apply magnitudesLow_eq_nil
    intro t ht
    exact hsil f hf t (List.mem_append_left _ ht)

/-- Claim C5 witness: two silent 512-sample frames from the initial state
under the default configuration leave the machine waiting. -/
theorem silence_never_leaves_waiting_witness :
    (runFrames cfg0 initState
        [(silentFrame, 100), (silentFrame, 100)]).pressed = none ∧
      (runFrames cfg0 initState
        [(silentFrame, 100), (silentFrame, 100)]).complete = false :=
  silence_never_leaves_waiting cfg0 [(silentFrame, 100), (silentFrame, 100)]
    (by decide) (by decide) ⟨by norm_num [cfg0], by norm_num [cfg0]⟩ (by decide)
    (by
      intro f hf t ht
      have hfe : f = (silentFrame, 100) := by
        simpa using hf
      subst hfe
      norm_num [silentFrame, cfg0])

theorem debStep_saved_cases (d : Nat) (f : Option Char) (s : DState) :
    (debStep d f s).saved = s.saved ∨ (debStep d f s).saved = f := by
  unfold debStep
  split_ifs <;> simp

/-- One live step keeps every symbol field inside the table's value set,
and a completion produced by this step carries a table symbol in
`pressed`. -/
theorem listenRaw_good (cfg : Cfg) (found : Option Char) (delta : Nat) (s : DState)
    (hf : ∀ c, found = some c → c ∈ TONES.map Prod.snd)
    (hs : ∀ c, s.saved = some c → c ∈ TONES.map Prod.snd)
    (hp : ∀ c, s.pressed = some c → c ∈ TONES.map Prod.snd)
    (hc : s.complete = false) :
    (∀ c, (listenRaw cfg found delta s).saved = some c → c ∈ TONES.map Prod.snd) ∧
    (∀ c, (listenRaw cfg found delta s).pressed = some c → c ∈ TONES.map Prod.snd) ∧
    ((listenRaw cfg found delta s).complete = true →
      ∃ c, (listenRaw cfg found delta s).pressed = some c ∧ c ∈ TONES.map Prod.snd) := by
  have hmsaved : (midState cfg found delta s).saved = s.saved ∨
      (midState cfg found delta s).saved = found := by
    simpa [midState, tick] using debStep_saved_cases cfg.debounce found s
  have hms : ∀ c, (midState cfg found delta s).saved = some c → c ∈ TONES.map Prod.snd := by
    rcases hmsaved with h | h <;> rw [h]
    · exact hs
    · exact hf
  have hmp : (midState cfg found delta s).pressed = s.pressed :=
    midState_pressed cfg found delta s
  have hmc : (midState cfg found delta s).complete = false := by
    rw [midState_complete]; exact hc
  rw [listenRaw_eq]
  unfold pressStep
  split_ifs with h1 hA hB hC
  · exact ⟨hms, hms, fun habs => absurd (hmc ▸ habs) (by simp)⟩
  · exact ⟨hms, fun c hcx => hp c (hmp ▸ hcx),
      fun habs => absurd (hmc ▸ habs) (by simp)⟩
  · exact ⟨hms, fun c hcx => False.elim (by simpa using hcx),
      fun habs => absurd (hmc ▸ habs) (by simp)⟩
  · refine ⟨hms, fun c hcx => hp c (hmp ▸ hcx), fun _ => ?_⟩
    rcases hopt : (midState cfg found delta s).pressed with _ | c
    · exact absurd hopt h1
    · exact ⟨c, rfl, hp c (hmp ▸ hopt)⟩
  · exact ⟨hms, fun c hcx => hp c (hmp ▸ hcx),
      fun habs => absurd (hmc ▸ habs) (by simp)⟩

theorem runFrames_good (cfg : Cfg) : ∀ (fs : List (Frame × Nat)) (s : DState),
    (∀ c, s.saved = some c → c ∈ TONES.map Prod.snd) →
    (∀ c, s.pressed = some c → c ∈ TONES.map Prod.snd) →
    (s.complete = true → ∃ c, s.pressed = some c ∧ c ∈ TONES.map Prod.snd) →
    (runFrames cfg s fs).complete = true →
      ∃ c, (runFrames cfg s fs).pressed = some c ∧ c ∈ TONES.map Prod.snd := by
  intro fs
  induction fs with
  | nil => intro s _ _ hcm; exact hcm
  | cons f fs ih =>
      intro s hs hp hcm
      cases hb : s.complete with
      | true =>
          have hstop : runFrames cfg s (f :: fs) = s := by simp [runFrames, hb]
          rw [hstop]
          exact hcm
      | false =>
          simp only [runFrames, listenFrame, hb, Bool.false_eq_true, if_false]
          obtain ⟨gs, gp, gc⟩ := listenRaw_good cfg (foundTone cfg.strength f.1) f.2 s
            (fun c hcx => foundTone_mem cfg.strength f.1 c hcx) hs hp hb
          exact ih _ gs gp gc

/-- Claim C9: whenever `complete` becomes true over any run of frames from
the initial state, `pressed` is non-none, and the symbol it carries — the
value `detect_tone` returns on the completion path — is one of the 16
entries of the table. -/
theorem completion_implies_table_symbol (cfg : Cfg) (fs : List (Frame × Nat))
    (h : (runFrames cfg initState fs).complete = true) :
    ∃ c, (runFrames cfg initState fs).pressed = some c ∧ c ∈ TONES.map Prod.snd := by
  refine runFrames_good cfg fs initState ?_ ?_ ?_ h
  · intro c hcx; exact Option.noConfusion hcx
  · intro c hcx; exact Option.noConfusion hcx
  · intro hcx; exact absurd hcx (by simp [initState])

/-- Six 100ms frames of the clean '1' pair followed by one silent frame:
enough tone for toneTime 250ms and enough trailing time for hangTime 50ms. -/
def pressFrames : List (Frame × Nat) :=
  [(toneFrame, 100), (toneFrame, 100), (toneFrame, 100), (toneFrame, 100),
   (toneFrame, 100), (toneFrame, 100), (silentFrame, 100)]

/-- Claim C9 witness: the concrete '1'-press run completes, and the final
pressed symbol is a table symbol. -/
theorem completion_implies_table_symbol_witness :
    ∃ c, (runFrames cfg0 initState pressFrames).pressed = some c ∧
      c ∈ TONES.map Prod.snd :=
  completion_implies_table_symbol cfg0 pressFrames (by
    simp only [pressFrames, runFrames, listenFrame, cfg0, foundTone_toneFrame,
      foundTone_silentFrame]
    decide)

/-- Claim C8: the DTMF symbol table is total and injective over the 4x4
grid: every (low, high) pair from TONES_LOW x TONES_HIGH has exactly one
entry, the 16 symbols are pairwise distinct, and they are exactly the
digits 0-9, the star, the hash, and the letters A-D. -/
theorem tones_table_total_injective :
    (∀ l ∈ TONES_LOW, ∀ h ∈ TONES_HIGH, (TONES.lookup (l, h)).isSome) ∧
    (TONES.map Prod.fst).Nodup ∧
    (TONES.map Prod.fst = TONES_LOW.flatMap (fun l => TONES_HIGH.map (fun h => (l, h)))) ∧
    (TONES.map Prod.snd).Nodup ∧
    (TONES.map Prod.snd).Perm
      ['0', '1', '2', '3', '4', '5', '6', '7', '8', '9', '*', '#', 'A', 'B', 'C', 'D'] := by
  decide
